import Mathlib

set_option linter.unusedSectionVars false

/-!
Verification of the `PositionSimulator` engine (`simulator/simulation.py`).

The simulator is embedded shallowly, polymorphically over a linear ordered
field `α` with a floor function.  Instantiating `α := ℚ` gives a computable
model on which concrete runs can be evaluated by `decide`; the geometric
Brownian motion price-path generator, which uses `exp` and `sqrt`, is
instantiated over `ℝ`.

The pseudorandom normal draws consumed by `_simulate_price_path`
(`np.random.normal()`, one draw per step) are modelled as a stream
`eps : ℕ → ℝ` indexed by the step number; a fixed seed fixes the stream.
The wall-clock base time read by `datetime.datetime.now()` in the loop is
modelled as an explicit parameter `now`.
-/

namespace PositionSimulator

/-- The per-step action of the rebalance policy (`"NONE"` / `"REBALANCE"`
strings in the source). -/
inductive Action where
  | NONE : Action
  | REBALANCE : Action
deriving DecidableEq, Repr

/-- The dict returned by `_execute_rebalance`
(`{"trade_profit": …, "hedging_cost": …, "net_profit": …}`). -/
@[ext] structure HedgeDetails (α : Type) where
  trade_profit : α
  hedging_cost : α
  net_profit : α
deriving DecidableEq, Repr

/-- One entry of `self.simulation_log` (the `step_log` dict built in
`run_simulation`, lines 132-142).  The optional hedge-detail fields added by
`step_log.update(hedge_details)` are modelled as an `Option` payload. -/
@[ext] structure LogEntry (α : Type) where
  step : ℕ
  timestamp : α
  price : α
  travel_percent : α
  action : Action
  unrealized_pnl : α
  cumulative_profit : α
  hedge : Option (HedgeDetails α)
deriving DecidableEq, Repr

/-- Immutable run parameters fixed in `__init__`. -/
@[ext] structure SimConfig (α : Type) where
  entry_price : α
  liquidation_price : α
  position_size : α
  collateral : α
  rebalance_threshold : α
  hedging_cost_pct : α
deriving DecidableEq, Repr

/-- Mutable simulator state (`__init__`, lines 52-56). -/
@[ext] structure SimState (α : Type) where
  effective_entry_price : α
  cumulative_profit : α
  total_hedging_cost : α
  rebalance_count : ℕ
  simulation_log : List (LogEntry α)
deriving DecidableEq, Repr

variable {α : Type} [LinearOrderedField α] [FloorRing α]

/-- Initial state built by `__init__`: the effective entry price starts at
the entry price, accumulators at zero, log empty. -/
def init_state (c : SimConfig α) : SimState α :=
  { effective_entry_price := c.entry_price
    cumulative_profit := 0
    total_hedging_cost := 0
    rebalance_count := 0
    simulation_log := [] }

/-- `_calculate_travel_percent` (lines 71-80). -/
def calculate_travel_percent (c : SimConfig α) (s : SimState α)
    (current_price : α) : α :=
  let denominator := s.effective_entry_price - c.liquidation_price
  if denominator = 0 then 0
  else ((current_price - s.effective_entry_price) / denominator) * 100

/-- `_execute_rebalance` (lines 82-101): returns the hedge-details record
and the mutated state. -/
def execute_rebalance (c : SimConfig α) (s : SimState α)
    (current_price : α) : HedgeDetails α × SimState α :=
  let trade_profit := (current_price - s.effective_entry_price) * c.position_size
  let hedging_cost := |current_price * c.position_size| * c.hedging_cost_pct
  let net_profit := trade_profit - hedging_cost
  (⟨trade_profit, hedging_cost, net_profit⟩,
   { s with
      cumulative_profit := s.cumulative_profit + net_profit
      total_hedging_cost := s.total_hedging_cost + hedging_cost
      rebalance_count := s.rebalance_count + 1
      effective_entry_price := current_price })

/-- The state after the rebalance decision of one loop iteration
(lines 128-130): the state is mutated by `_execute_rebalance` exactly when
`travel_pct <= self.rebalance_threshold`. -/
def step_state (c : SimConfig α) (s : SimState α) (next_price : α) :
    SimState α :=
  if calculate_travel_percent c s next_price ≤ c.rebalance_threshold then
    (execute_rebalance c s next_price).2
  else s

/-- The log record appended by one loop iteration (lines 123-142).
`stepIdx` is the 0-based `step` of the `for` loop; the recorded
`unrealized_pnl` and `cumulative_profit` are read from the state *after*
the rebalance decision, as in the source. -/
def step_entry (c : SimConfig α) (s : SimState α) (stepIdx : ℕ)
    (now dt_minutes next_price : α) : LogEntry α :=
  let travel_pct := calculate_travel_percent c s next_price
  let s1 := step_state c s next_price
  { step := stepIdx + 1
    timestamp := now + (stepIdx : α) * dt_minutes
    price := next_price
    travel_percent := travel_pct
    action := if travel_pct ≤ c.rebalance_threshold then Action.REBALANCE
              else Action.NONE
    unrealized_pnl := (next_price - s1.effective_entry_price) * c.position_size
    cumulative_profit := s1.cumulative_profit
    hedge := if travel_pct ≤ c.rebalance_threshold then
               some (execute_rebalance c s next_price).1
             else none }

/-- One full iteration of the `for step in range(num_steps)` loop
(lines 122-145): decide/execute the rebalance, then append the log record. -/
def sim_step (c : SimConfig α) (s : SimState α) (stepIdx : ℕ)
    (now dt_minutes next_price : α) : SimState α :=
  let s1 := step_state c s next_price
  { s1 with
      simulation_log :=
        s1.simulation_log ++ [step_entry c s stepIdx now dt_minutes next_price] }

/-- The simulation loop.  `gen k p` is the next price generated from current
price `p` at step index `k` (`self._simulate_price_path(current_price, …)`,
consuming the step's pseudorandom draw).  Returns the final state and the
final `current_price`. -/
def run_loop (c : SimConfig α) (dt_minutes now : α) (gen : ℕ → α → α) :
    ℕ → α → SimState α → ℕ → SimState α × α
  | _, current_price, s, 0 => (s, current_price)
  | k, current_price, s, n + 1 =>
      let next_price := gen k current_price
      run_loop c dt_minutes now gen (k + 1) next_price
        (sim_step c s k now dt_minutes next_price) n

/-- Python `int(x)`: truncation toward zero. -/
def pyInt (x : α) : ℤ := if x < 0 then -⌊-x⌋ else ⌊x⌋

/-- `num_steps = int(simulation_duration / dt_minutes)` (line 118); a
non-positive value makes `range(num_steps)` empty, hence `Int.toNat`. -/
def num_steps (simulation_duration dt_minutes : α) : ℕ :=
  (pyInt (simulation_duration / dt_minutes)).toNat

/-- `run_simulation` (lines 103-146), abstracted over the price generator:
run `num_steps` loop iterations starting from the entry price and a fresh
state.  Returns the final state and final price. -/
def run_simulation (c : SimConfig α) (gen : ℕ → α → α)
    (simulation_duration dt_minutes now : α) : SimState α × α :=
  run_loop c dt_minutes now gen 0 c.entry_price (init_state c)
    (num_steps simulation_duration dt_minutes)

/-- `MINUTES_IN_YEAR = 525600` (line 24). -/
def MINUTES_IN_YEAR : ℕ := 525600

/-- `_simulate_price_path` (lines 58-69): one geometric-Brownian-motion
update, `eps` being the standard-normal draw of this step. -/
noncomputable def simulate_price_path (current_price drift volatility dt eps : ℝ) : ℝ :=
  current_price *
    Real.exp ((drift - 0.5 * volatility ^ 2) * dt + volatility * Real.sqrt dt * eps)

/-- `run_simulation` with the concrete GBM price generator (lines 117 and
124): `dt = dt_minutes / MINUTES_IN_YEAR`, and step `k` consumes the draw
`eps k`. -/
noncomputable def run_simulation_gbm (c : SimConfig ℝ)
    (simulation_duration dt_minutes drift volatility now : ℝ) (eps : ℕ → ℝ) :
    SimState ℝ × ℝ :=
  let dt := dt_minutes / (MINUTES_IN_YEAR : ℝ)
  run_simulation c
    (fun k p => simulate_price_path p drift volatility dt (eps k))
    simulation_duration dt_minutes now

/-- Final unrealized PnL computed after the loop (line 148). -/
def final_unrealized_pnl (c : SimConfig α) (r : SimState α × α) : α :=
  (r.2 - r.1.effective_entry_price) * c.position_size

/-- Fold computing the effective entry price implied by a log: the price of
the last `REBALANCE` entry, or the default when no entry rebalanced. -/
def lastRebalancePrice (entries : List (LogEntry α)) (default : α) : α :=
  entries.foldl
    (fun acc e => if e.action = Action.REBALANCE then e.price else acc) default

/-- The `net_profit` field recorded in a log entry's hedge details, `0` for
an entry that carries none. -/
def entryNetProfit (e : LogEntry α) : α :=
  match e.hedge with
  | some hd => hd.net_profit
  | none => 0

/-- Sum of the `net_profit` fields of the `REBALANCE` entries of a log. -/
def netProfitSum (entries : List (LogEntry α)) : α :=
  ((entries.filter (fun e => decide (e.action = Action.REBALANCE))).map
    entryNetProfit).sum

/-- Number of `REBALANCE` entries of a log. -/
def countRebalances (entries : List (LogEntry α)) : ℕ :=
  entries.countP (fun e => decide (e.action = Action.REBALANCE))

/-- A log entry with its timestamp erased, for comparing logs up to
wall-clock time. -/
def stripTime (e : LogEntry α) : LogEntry α := { e with timestamp := 0 }

/-- Two run results agree on everything except the timestamps of their log
entries. -/
def AgreeExceptTime (r₁ r₂ : SimState α × α) : Prop :=
  r₁.2 = r₂.2 ∧
  r₁.1.effective_entry_price = r₂.1.effective_entry_price ∧
  r₁.1.cumulative_profit = r₂.1.cumulative_profit ∧
  r₁.1.total_hedging_cost = r₂.1.total_hedging_cost ∧
  r₁.1.rebalance_count = r₂.1.rebalance_count ∧
  r₁.1.simulation_log.map stripTime = r₂.1.simulation_log.map stripTime

/-! ### Basic unfolding lemmas -/

theorem step_state_log (c : SimConfig α) (s : SimState α) (p : α) :
    (step_state c s p).simulation_log = s.simulation_log := by
  unfold step_state execute_rebalance
  split <;> rfl

theorem sim_step_eq (c : SimConfig α) (s : SimState α) (k : ℕ) (now dt p : α) :
    sim_step c s k now dt p =
      { step_state c s p with
          simulation_log := s.simulation_log ++ [step_entry c s k now dt p] } := by
  simp only [sim_step, step_state_log]

theorem run_loop_succ (c : SimConfig α) (dt now : α) (gen : ℕ → α → α)
    (k : ℕ) (cur : α) (s : SimState α) (n : ℕ) :
    run_loop c dt now gen k cur s (n + 1) =
      run_loop c dt now gen (k + 1) (gen k cur)
        (sim_step c s k now dt (gen k cur)) n := rfl

/-- Any property of the state preserved by a single loop iteration is
preserved by the whole loop. -/
theorem run_loop_invariant (c : SimConfig α) (dt now : α) (gen : ℕ → α → α)
    (P : SimState α → Prop)
    (hstep : ∀ s k p, P s → P (sim_step c s k now dt p)) :
    ∀ n k cur s, P s → P (run_loop c dt now gen k cur s n).1 := by
  intro n
  induction n with
  | zero => intro k cur s h; exact h
  | succ n ih =>
      intro k cur s h
      rw [run_loop_succ]
      exact ih (k + 1) (gen k cur) _ (hstep s k (gen k cur) h)

theorem run_loop_log_length (c : SimConfig α) (dt now : α) (gen : ℕ → α → α) :
    ∀ n k cur s, (run_loop c dt now gen k cur s n).1.simulation_log.length
      = s.simulation_log.length + n := by
  intro n
  induction n with
  | zero => intro k cur s; rfl
  | succ n ih =>
      intro k cur s
      rw [run_loop_succ, ih, sim_step_eq]
      simp
      omega

/-- Any property satisfied by every entry the loop can append holds for every
entry of the final log, provided it holds for the entries already present. -/
theorem run_loop_log_entries (c : SimConfig α) (dt now : α) (gen : ℕ → α → α)
    (Q : LogEntry α → Prop)
    (hQ : ∀ s k p, Q (step_entry c s k now dt p)) :
    ∀ n k cur s, (∀ e ∈ s.simulation_log, Q e) →
      ∀ e ∈ (run_loop c dt now gen k cur s n).1.simulation_log, Q e := by
  intro n k cur s h
  refine run_loop_invariant c dt now gen
    (fun st => ∀ e ∈ st.simulation_log, Q e) ?_ n k cur s h
  intro s' k' p' hs' e he
  rw [sim_step_eq] at he
  simp only [List.mem_append, List.mem_singleton] at he
  rcases he with he | rfl
  · exact hs' e he
  · exact hQ s' k' p'

/-- Evaluation helper: a run of exactly one step is a single `sim_step` from
the initial state. -/
theorem run_simulation_one_step (c : SimConfig α) (gen : ℕ → α → α)
    (d dt now : α) (h1 : num_steps d dt = 1) :
    run_simulation c gen d dt now =
      (sim_step c (init_state c) 0 now dt (gen 0 c.entry_price),
       gen 0 c.entry_price) := by
  rw [run_simulation, h1]
  rfl

/-! ### Claim theorems -/

/-- C1: the travel evaluator returns
`((current − reference) / (reference − liquidation)) * 100`, except that it
returns exactly `0` whenever the effective reference price equals the
liquidation price (zero denominator), for any current price. -/
theorem calculate_travel_percent_spec (c : SimConfig α) (s : SimState α)
    (p : α) :
    calculate_travel_percent c s p =
      if s.effective_entry_price = c.liquidation_price then 0
      else ((p - s.effective_entry_price) /
              (s.effective_entry_price - c.liquidation_price)) * 100 := by
  by_cases h : s.effective_entry_price = c.liquidation_price
  · simp [calculate_travel_percent, h]
  · simp [calculate_travel_percent, h, sub_eq_zero]

/-- C3: an executed rebalance at price `p` computes
`trade_profit = (p − reference) * size`,
`hedging_cost = |p * size| * cost_rate`,
`net_profit = trade_profit − hedging_cost`, adds `net_profit` to the
cumulative profit, adds `hedging_cost` to the total hedging cost, increments
the rebalance count by one, and returns exactly those three values. -/
theorem execute_rebalance_spec (c : SimConfig α) (s : SimState α) (p : α) :
    (execute_rebalance c s p).1.trade_profit
        = (p - s.effective_entry_price) * c.position_size ∧
    (execute_rebalance c s p).1.hedging_cost
        = |p * c.position_size| * c.hedging_cost_pct ∧
    (execute_rebalance c s p).1.net_profit
        = (execute_rebalance c s p).1.trade_profit
            - (execute_rebalance c s p).1.hedging_cost ∧
    (execute_rebalance c s p).2.cumulative_profit
        = s.cumulative_profit + (execute_rebalance c s p).1.net_profit ∧
    (execute_rebalance c s p).2.total_hedging_cost
        = s.total_hedging_cost + (execute_rebalance c s p).1.hedging_cost ∧
    (execute_rebalance c s p).2.rebalance_count = s.rebalance_count + 1 :=
  ⟨rfl, rfl, rfl, rfl, rfl, rfl⟩

/-- C2: in every step of a run, the recorded action is `REBALANCE` if and
only if that step's travel percent is less than or equal to the rebalance
threshold (the boundary `travel_pct = threshold` triggers a hedge). -/
theorem rebalance_iff_travel_le (c : SimConfig α) (gen : ℕ → α → α)
    (d dt now : α) (e : LogEntry α)
    (he : e ∈ (run_simulation c gen d dt now).1.simulation_log) :
    e.action = Action.REBALANCE ↔
      e.travel_percent ≤ c.rebalance_threshold := by
  rw [run_simulation] at he
  refine run_loop_log_entries c dt now gen
    (fun e => e.action = Action.REBALANCE ↔
      e.travel_percent ≤ c.rebalance_threshold) ?_ _ 0 c.entry_price
    (init_state c) ?_ e he
  · intro s k p
    simp only [step_entry]
    split_ifs with h <;> simp [h]
  · intro e he'
    simp [init_state] at he'

/-- Witness for C2: a concrete one-step run whose single log entry
rebalanced, with travel percent `0` at threshold `0`. -/
theorem rebalance_iff_travel_le_witness :
    (⟨1, 0, 2, 0, Action.REBALANCE, 0, 0, some ⟨0, 0, 0⟩⟩ : LogEntry ℚ) ∈
      (run_simulation (⟨2, 1, 1, 1, 0, 0⟩ : SimConfig ℚ) (fun _ p => p)
        1 1 0).1.simulation_log ∧
    ((⟨1, 0, 2, 0, Action.REBALANCE, 0, 0, some ⟨0, 0, 0⟩⟩ :
        LogEntry ℚ).action = Action.REBALANCE ↔
      (⟨1, 0, 2, 0, Action.REBALANCE, 0, 0, some ⟨0, 0, 0⟩⟩ :
        LogEntry ℚ).travel_percent ≤
        (⟨2, 1, 1, 1, 0, 0⟩ : SimConfig ℚ).rebalance_threshold) :=
  ⟨by
    rw [run_simulation_one_step _ _ _ _ _ (by norm_num [num_steps, pyInt])]
    norm_num [sim_step_eq, step_state, step_entry, execute_rebalance,
      calculate_travel_percent, init_state],
   rebalance_iff_travel_le (⟨2, 1, 1, 1, 0, 0⟩ : SimConfig ℚ) (fun _ p => p)
    1 1 0 _
    (by
      rw [run_simulation_one_step _ _ _ _ _ (by norm_num [num_steps, pyInt])]
      norm_num [sim_step_eq, step_state, step_entry, execute_rebalance,
        calculate_travel_percent, init_state])⟩

/-! ### Per-step projection lemmas and append lemmas -/

theorem step_entry_action (c : SimConfig α) (s : SimState α) (k : ℕ)
    (now dt p : α) :
    (step_entry c s k now dt p).action =
      if calculate_travel_percent c s p ≤ c.rebalance_threshold then
        Action.REBALANCE
      else Action.NONE := rfl

theorem step_entry_price (c : SimConfig α) (s : SimState α) (k : ℕ)
    (now dt p : α) : (step_entry c s k now dt p).price = p := rfl

theorem step_entry_hedge (c : SimConfig α) (s : SimState α) (k : ℕ)
    (now dt p : α) :
    (step_entry c s k now dt p).hedge =
      if calculate_travel_percent c s p ≤ c.rebalance_threshold then
        some (execute_rebalance c s p).1
      else none := rfl

theorem step_state_eff (c : SimConfig α) (s : SimState α) (p : α) :
    (step_state c s p).effective_entry_price =
      if calculate_travel_percent c s p ≤ c.rebalance_threshold then p
      else s.effective_entry_price := by
  unfold step_state
  split <;> rfl

theorem step_state_count (c : SimConfig α) (s : SimState α) (p : α) :
    (step_state c s p).rebalance_count =
      if calculate_travel_percent c s p ≤ c.rebalance_threshold then
        s.rebalance_count + 1
      else s.rebalance_count := by
  unfold step_state
  split <;> rfl

theorem step_state_cum (c : SimConfig α) (s : SimState α) (p : α) :
    (step_state c s p).cumulative_profit =
      if calculate_travel_percent c s p ≤ c.rebalance_threshold then
        s.cumulative_profit + (execute_rebalance c s p).1.net_profit
      else s.cumulative_profit := by
  unfold step_state
  split <;> rfl

theorem lastRebalancePrice_append (l : List (LogEntry α)) (e : LogEntry α)
    (d : α) :
    lastRebalancePrice (l ++ [e]) d =
      if e.action = Action.REBALANCE then e.price
      else lastRebalancePrice l d := by
  simp [lastRebalancePrice, List.foldl_append]

theorem countRebalances_append (l : List (LogEntry α)) (e : LogEntry α) :
    countRebalances (l ++ [e]) =
      countRebalances l + (if e.action = Action.REBALANCE then 1 else 0) := by
  simp [countRebalances, List.countP_append, List.countP_cons]

theorem netProfitSum_append (l : List (LogEntry α)) (e : LogEntry α) :
    netProfitSum (l ++ [e]) =
      netProfitSum l +
        (if e.action = Action.REBALANCE then entryNetProfit e else 0) := by
  by_cases h : e.action = Action.REBALANCE <;>
    simp [netProfitSum, List.filter_append, h]

/-- C4: across an entire run the effective reference price is changed only
by a rebalance, and always to the price of the triggering step: the final
effective entry price is the price of the last `REBALANCE` log entry (the
entry price when no step rebalanced), and a single loop iteration leaves
the effective entry price unchanged unless its action is `REBALANCE`, in
which case it becomes that step's price. -/
theorem effective_entry_price_frame (c : SimConfig α) (gen : ℕ → α → α)
    (d dt now : α) :
    (run_simulation c gen d dt now).1.effective_entry_price =
      lastRebalancePrice
        (run_simulation c gen d dt now).1.simulation_log c.entry_price ∧
    ∀ (s : SimState α) (k : ℕ) (p : α),
      (sim_step c s k now dt p).effective_entry_price =
        (if (step_entry c s k now dt p).action = Action.REBALANCE then p
         else s.effective_entry_price) := by
  have hstep : ∀ (s : SimState α) (k : ℕ) (p : α),
      (sim_step c s k now dt p).effective_entry_price =
        (if (step_entry c s k now dt p).action = Action.REBALANCE then p
         else s.effective_entry_price) := by
    intro s k p
    rw [sim_step_eq]
    show (step_state c s p).effective_entry_price = _
    rw [step_state_eff, step_entry_action]
    split_ifs with h h2 h3 <;> simp_all
  refine ⟨?_, hstep⟩
  rw [run_simulation]
  refine run_loop_invariant c dt now gen
    (fun st => st.effective_entry_price =
      lastRebalancePrice st.simulation_log c.entry_price) ?_ _ 0
    c.entry_price (init_state c) rfl
  intro s k p hs
  have h1 := hstep s k p
  rw [sim_step_eq] at h1 ⊢
  simp only [lastRebalancePrice_append] at *
  rw [h1]
  rw [step_entry_price]
  split_ifs with h
  · rfl
  · exact hs

/-- C5: at the end of every run, the rebalance count equals the number of
log entries whose action is `REBALANCE`. -/
theorem rebalance_count_eq_countRebalances (c : SimConfig α)
    (gen : ℕ → α → α) (d dt now : α) :
    (run_simulation c gen d dt now).1.rebalance_count =
      countRebalances (run_simulation c gen d dt now).1.simulation_log := by
  rw [run_simulation]
  refine run_loop_invariant c dt now gen
    (fun st => st.rebalance_count = countRebalances st.simulation_log) ?_ _ 0
    c.entry_price (init_state c) rfl
  intro s k p hs
  rw [sim_step_eq]
  show (step_state c s p).rebalance_count = countRebalances _
  rw [countRebalances_append, step_state_count, step_entry_action, hs]
  split_ifs with h h2 h3 <;> simp_all

/-- C6: at the end of every run, the cumulative realized profit equals the
sum of the `net_profit` fields of exactly the `REBALANCE` log entries;
moreover a loop iteration whose action is `NONE` leaves the cumulative
profit unchanged. -/
theorem cumulative_profit_eq_netProfitSum (c : SimConfig α)
    (gen : ℕ → α → α) (d dt now : α) :
    (run_simulation c gen d dt now).1.cumulative_profit =
      netProfitSum (run_simulation c gen d dt now).1.simulation_log ∧
    ∀ (s : SimState α) (k : ℕ) (p : α),
      (step_entry c s k now dt p).action = Action.NONE →
        (sim_step c s k now dt p).cumulative_profit =
          s.cumulative_profit := by
  constructor
  · rw [run_simulation]
    refine run_loop_invariant c dt now gen
      (fun st => st.cumulative_profit = netProfitSum st.simulation_log) ?_ _ 0
      c.entry_price (init_state c) rfl
    intro s k p hs
    rw [sim_step_eq]
    show (step_state c s p).cumulative_profit = netProfitSum _
    rw [netProfitSum_append, step_state_cum, step_entry_action, hs]
    split_ifs with h h2 h3
    · rw [entryNetProfit, step_entry_hedge, if_pos h]
    · simp_all
    · simp_all
    · rw [add_zero]
  · intro s k p hne
    rw [step_entry_action] at hne
    rw [sim_step_eq]
    show (step_state c s p).cumulative_profit = _
    rw [step_state_cum]
    split_ifs with h
    · rw [if_pos h] at hne
      exact absurd hne (by simp)
    · rfl

/-- Witness for C6: a concrete step whose action is `NONE` (travel percent
`0` against threshold `-25`) leaves the cumulative profit unchanged. -/
theorem cumulative_profit_eq_netProfitSum_witness :
    (step_entry (⟨2, 1, 1, 1, -25, 0⟩ : SimConfig ℚ)
        (init_state ⟨2, 1, 1, 1, -25, 0⟩) 0 0 1 2).action = Action.NONE ∧
    (sim_step (⟨2, 1, 1, 1, -25, 0⟩ : SimConfig ℚ)
        (init_state ⟨2, 1, 1, 1, -25, 0⟩) 0 0 1 2).cumulative_profit =
      (init_state (⟨2, 1, 1, 1, -25, 0⟩ : SimConfig ℚ)).cumulative_profit :=
  ⟨by
    rw [step_entry_action]
    norm_num [calculate_travel_percent, init_state],
   (cumulative_profit_eq_netProfitSum (⟨2, 1, 1, 1, -25, 0⟩ : SimConfig ℚ)
      (fun _ p => p) 1 1 0).2 (init_state ⟨2, 1, 1, 1, -25, 0⟩) 0 2
    (by
      rw [step_entry_action]
      norm_num [calculate_travel_percent, init_state])⟩

/-- C7: for a non-negative duration and positive step duration, the run
executes `num_steps = ⌊duration / step_duration⌋` steps and the log has
exactly `num_steps` entries. -/
theorem log_length_eq_num_steps (c : SimConfig α) (gen : ℕ → α → α)
    (d dt now : α) (hd : 0 ≤ d) (hdt : 0 < dt) :
    (run_simulation c gen d dt now).1.simulation_log.length =
      num_steps d dt ∧
    (num_steps d dt : ℤ) = ⌊d / dt⌋ := by
  constructor
  · rw [run_simulation, run_loop_log_length]
    simp [init_state]
  · have hq : (0 : α) ≤ d / dt := div_nonneg hd hdt.le
    rw [num_steps, pyInt, if_neg (not_lt.mpr hq)]
    exact Int.toNat_of_nonneg (Int.floor_nonneg.mpr hq)

/-- Witness for C7: a concrete run of duration 5 with step duration 2
yields `⌊5 / 2⌋ = 2` steps and a 2-entry log. -/
theorem log_length_eq_num_steps_witness :
    (0 : ℚ) ≤ 5 ∧ (0 : ℚ) < 2 ∧
    ((run_simulation (⟨2, 1, 1, 1, 0, 0⟩ : SimConfig ℚ) (fun _ p => p)
        5 2 0).1.simulation_log.length = num_steps (5 : ℚ) 2 ∧
      (num_steps (5 : ℚ) 2 : ℤ) = ⌊(5 : ℚ) / 2⌋) :=
  ⟨by norm_num, by norm_num,
   log_length_eq_num_steps (⟨2, 1, 1, 1, 0, 0⟩ : SimConfig ℚ) (fun _ p => p)
     5 2 0 (by norm_num) (by norm_num)⟩

/-- C10: every log entry whose action is `REBALANCE` records an unrealized
PnL of exactly `0`, because the effective reference price was reset to the
step's price before the unrealized PnL was computed. -/
theorem rebalance_entry_unrealized_pnl_zero (c : SimConfig α)
    (gen : ℕ → α → α) (d dt now : α) (e : LogEntry α)
    (he : e ∈ (run_simulation c gen d dt now).1.simulation_log)
    (ha : e.action = Action.REBALANCE) : e.unrealized_pnl = 0 := by
  revert ha
  rw [run_simulation] at he
  refine run_loop_log_entries c dt now gen
    (fun e => e.action = Action.REBALANCE → e.unrealized_pnl = 0) ?_ _ 0
    c.entry_price (init_state c) ?_ e he
  · intro s k p ha
    rw [step_entry_action] at ha
    show (p - (step_state c s p).effective_entry_price) * c.position_size = 0
    rw [step_state_eff]
    split_ifs with h
    · rw [sub_self, zero_mul]
    · rw [if_neg h] at ha
      exact absurd ha (by simp)
  · intro e he'
    simp [init_state] at he'

/-- Witness for C10: the rebalancing entry of a concrete one-step run has
unrealized PnL `0`. -/
theorem rebalance_entry_unrealized_pnl_zero_witness :
    (⟨1, 0, 2, 0, Action.REBALANCE, 0, 0, some ⟨0, 0, 0⟩⟩ : LogEntry ℚ) ∈
      (run_simulation (⟨2, 1, 1, 1, 0, 0⟩ : SimConfig ℚ) (fun _ p => p)
        1 1 0).1.simulation_log ∧
    (⟨1, 0, 2, 0, Action.REBALANCE, 0, 0, some ⟨0, 0, 0⟩⟩ :
      LogEntry ℚ).action = Action.REBALANCE ∧
    (⟨1, 0, 2, 0, Action.REBALANCE, 0, 0, some ⟨0, 0, 0⟩⟩ :
      LogEntry ℚ).unrealized_pnl = 0 :=
  ⟨by
    rw [run_simulation_one_step _ _ _ _ _ (by norm_num [num_steps, pyInt])]
    norm_num [sim_step_eq, step_state, step_entry, execute_rebalance,
      calculate_travel_percent, init_state],
   rfl,
   rebalance_entry_unrealized_pnl_zero (⟨2, 1, 1, 1, 0, 0⟩ : SimConfig ℚ)
    (fun _ p => p) 1 1 0 _
    (by
      rw [run_simulation_one_step _ _ _ _ _ (by norm_num [num_steps, pyInt])]
      norm_num [sim_step_eq, step_state, step_entry, execute_rebalance,
        calculate_travel_percent, init_state])
    rfl⟩

/-! ### Zero-volatility, zero-drift price paths -/

theorem step_state_cost (c : SimConfig α) (s : SimState α) (p : α) :
    (step_state c s p).total_hedging_cost =
      if calculate_travel_percent c s p ≤ c.rebalance_threshold then
        s.total_hedging_cost + (execute_rebalance c s p).1.hedging_cost
      else s.total_hedging_cost := by
  unfold step_state
  split <;> rfl

/-- With zero drift and zero volatility the GBM update is the identity. -/
theorem simulate_price_path_zero (p dt e : ℝ) :
    simulate_price_path p 0 0 dt e = p := by
  norm_num [simulate_price_path]

/-- With zero drift and zero volatility, the GBM run coincides with a run
whose price generator is the identity. -/
theorem run_simulation_gbm_zero (c : SimConfig ℝ) (d dt now : ℝ)
    (eps : ℕ → ℝ) :
    run_simulation_gbm c d dt 0 0 now eps =
      run_simulation c (fun _ p => p) d dt now := by
  simp only [run_simulation_gbm]
  congr 1
  funext k p
  exact simulate_price_path_zero p _ (eps k)

/-- The travel percent of the effective entry price itself is `0` in both
branches of the zero-denominator test. -/
theorem travel_at_reference (c : SimConfig α) (s : SimState α) :
    calculate_travel_percent c s s.effective_entry_price = 0 := by
  simp only [calculate_travel_percent]
  split_ifs with h
  · rfl
  · rw [sub_self, zero_div, zero_mul]

/-- Core induction for scenario C: under a strictly negative threshold, a
run whose generator keeps the price at the reference price never
rebalances and accrues nothing. -/
theorem const_run_loop (c : SimConfig α) (dt now : α)
    (hth : c.rebalance_threshold < 0) :
    ∀ n k (s : SimState α), s.effective_entry_price = c.entry_price →
      (run_loop c dt now (fun _ p => p) k c.entry_price s n).2
          = c.entry_price ∧
      (run_loop c dt now (fun _ p => p) k c.entry_price s n).1.effective_entry_price
          = c.entry_price ∧
      (run_loop c dt now (fun _ p => p) k c.entry_price s n).1.cumulative_profit
          = s.cumulative_profit ∧
      (run_loop c dt now (fun _ p => p) k c.entry_price s n).1.total_hedging_cost
          = s.total_hedging_cost ∧
      (run_loop c dt now (fun _ p => p) k c.entry_price s n).1.rebalance_count
          = s.rebalance_count ∧
      ∀ e ∈ (run_loop c dt now (fun _ p => p) k c.entry_price s n).1.simulation_log,
        e ∈ s.simulation_log ∨
          (e.price = c.entry_price ∧ e.travel_percent = 0 ∧
           e.action = Action.NONE ∧ e.unrealized_pnl = 0) := by
  intro n
  induction n with
  | zero =>
      intro k s hs
      exact ⟨rfl, hs, rfl, rfl, rfl, fun e he => Or.inl he⟩
  | succ n ih =>
      intro k s hs
      rw [run_loop_succ]
      have htr : calculate_travel_percent c s c.entry_price = 0 := by
        rw [← hs]
        exact travel_at_reference c s
      have hcond : ¬ calculate_travel_percent c s c.entry_price ≤
          c.rebalance_threshold := by
        rw [htr]
        exact not_le.mpr hth
      have hss : step_state c s c.entry_price = s := by
        unfold step_state
        rw [if_neg hcond]
      have hsim : sim_step c s k now dt c.entry_price =
          { s with
              simulation_log := s.simulation_log ++
                [step_entry c s k now dt c.entry_price] } := by
        rw [sim_step_eq, hss]
      have hQ : (step_entry c s k now dt c.entry_price).price = c.entry_price ∧
          (step_entry c s k now dt c.entry_price).travel_percent = 0 ∧
          (step_entry c s k now dt c.entry_price).action = Action.NONE ∧
          (step_entry c s k now dt c.entry_price).unrealized_pnl = 0 := by
        refine ⟨rfl, htr, ?_, ?_⟩
        · rw [step_entry_action, if_neg hcond]
        · show (c.entry_price -
              (step_state c s c.entry_price).effective_entry_price) *
                c.position_size = 0
          rw [hss, hs, sub_self, zero_mul]
      show (run_loop c dt now (fun _ p => p) (k + 1) c.entry_price
        (sim_step c s k now dt c.entry_price) n).2 = c.entry_price ∧ _
      rw [hsim]
      have ih2 := ih (k + 1)
        { s with
            simulation_log := s.simulation_log ++
              [step_entry c s k now dt c.entry_price] } hs
      refine ⟨ih2.1, ih2.2.1, ih2.2.2.1, ih2.2.2.2.1, ih2.2.2.2.2.1, ?_⟩
      intro e he
      rcases ih2.2.2.2.2.2 e he with hmem | hq
      · simp only [List.mem_append, List.mem_singleton] at hmem
        rcases hmem with hmem | rfl
        · exact Or.inl hmem
        · exact Or.inr hQ
      · exact Or.inr hq

/-- Counterexample to C8 as stated: with volatility `0` and drift `0` but a
rebalance threshold of `0`, the constant price path has travel percent `0`
at every step, which satisfies `travel_pct <= threshold`, so the run
rebalances every step and realizes a strictly negative profit.  Here a
one-step run (entry 2, liquidation 1, size 1, cost rate 1) executes one
rebalance and ends with cumulative profit `-2`, not `0`. -/
theorem zero_vol_zero_drift_cex :
    (run_simulation_gbm (⟨2, 1, 1, 1, 0, 1⟩ : SimConfig ℝ) 1 1 0 0 0
        (fun _ => 0)).1.rebalance_count = 1 ∧
    (run_simulation_gbm (⟨2, 1, 1, 1, 0, 1⟩ : SimConfig ℝ) 1 1 0 0 0
        (fun _ => 0)).1.cumulative_profit = -2 := by
  rw [run_simulation_gbm_zero,
    run_simulation_one_step _ _ _ _ _ (by norm_num [num_steps, pyInt])]
  constructor
  · rw [sim_step_eq]
    show (step_state _ _ _).rebalance_count = 1
    rw [step_state_count]
    norm_num [calculate_travel_percent, init_state]
  · rw [sim_step_eq]
    show (step_state _ _ _).cumulative_profit = -2
    rw [step_state_cum]
    norm_num [calculate_travel_percent, init_state, execute_rebalance]

/-- C8 (amended): for every run with volatility `0`, drift `0` and a
strictly negative rebalance threshold, the generated price equals the entry
price at every step, every log entry has travel percent `0`, action `NONE`
and unrealized PnL `0`, no rebalance is executed, the cumulative realized
profit is `0`, and the final unrealized PnL is `0`. -/
theorem zero_vol_zero_drift_run (c : SimConfig ℝ) (d dt now : ℝ)
    (eps : ℕ → ℝ) (hth : c.rebalance_threshold < 0) :
    (run_simulation_gbm c d dt 0 0 now eps).2 = c.entry_price ∧
    (∀ e ∈ (run_simulation_gbm c d dt 0 0 now eps).1.simulation_log,
      e.price = c.entry_price ∧ e.travel_percent = 0 ∧
      e.action = Action.NONE ∧ e.unrealized_pnl = 0) ∧
    (run_simulation_gbm c d dt 0 0 now eps).1.rebalance_count = 0 ∧
    (run_simulation_gbm c d dt 0 0 now eps).1.cumulative_profit = 0 ∧
    final_unrealized_pnl c (run_simulation_gbm c d dt 0 0 now eps) = 0 := by
  rw [run_simulation_gbm_zero, run_simulation]
  have h := const_run_loop c dt now hth (num_steps d dt) 0 (init_state c) rfl
  refine ⟨h.1, ?_, ?_, ?_, ?_⟩
  · intro e he
    rcases h.2.2.2.2.2 e he with hmem | hq
    · exact absurd hmem (by simp [init_state])
    · exact hq
  · exact h.2.2.2.2.1
  · exact h.2.2.1
  · rw [final_unrealized_pnl, h.1, h.2.1, sub_self, zero_mul]

/-- Witness for C8 (amended): a concrete zero-volatility, zero-drift run
with the default threshold `-25` executes no rebalance. -/
theorem zero_vol_zero_drift_run_witness :
    (⟨2, 1, 1, 1, -25, 1⟩ : SimConfig ℝ).rebalance_threshold < 0 ∧
    (run_simulation_gbm (⟨2, 1, 1, 1, -25, 1⟩ : SimConfig ℝ) 1 1 0 0 0
        (fun _ => 0)).1.rebalance_count = 0 ∧
    (run_simulation_gbm (⟨2, 1, 1, 1, -25, 1⟩ : SimConfig ℝ) 1 1 0 0 0
        (fun _ => 0)).1.cumulative_profit = 0 :=
  ⟨by norm_num,
   (zero_vol_zero_drift_run (⟨2, 1, 1, 1, -25, 1⟩ : SimConfig ℝ) 1 1 0
      (fun _ => 0) (by norm_num)).2.2.1,
   (zero_vol_zero_drift_run (⟨2, 1, 1, 1, -25, 1⟩ : SimConfig ℝ) 1 1 0
      (fun _ => 0) (by norm_num)).2.2.2.1⟩

/-! ### Wall-clock independence of everything except timestamps -/

theorem step_entry_travel (c : SimConfig α) (s : SimState α) (k : ℕ)
    (now dt p : α) :
    (step_entry c s k now dt p).travel_percent =
      calculate_travel_percent c s p := rfl

theorem step_entry_cumulative (c : SimConfig α) (s : SimState α) (k : ℕ)
    (now dt p : α) :
    (step_entry c s k now dt p).cumulative_profit =
      (step_state c s p).cumulative_profit := rfl

theorem calculate_travel_percent_congr (c : SimConfig α)
    (s₁ s₂ : SimState α) (p : α)
    (h1 : s₁.effective_entry_price = s₂.effective_entry_price) :
    calculate_travel_percent c s₁ p = calculate_travel_percent c s₂ p := by
  simp only [calculate_travel_percent, h1]

theorem execute_rebalance_fst_congr (c : SimConfig α) (s₁ s₂ : SimState α)
    (p : α) (h1 : s₁.effective_entry_price = s₂.effective_entry_price) :
    (execute_rebalance c s₁ p).1 = (execute_rebalance c s₂ p).1 := by
  simp only [execute_rebalance, h1]

theorem step_state_congr (c : SimConfig α) (s₁ s₂ : SimState α) (p : α)
    (h1 : s₁.effective_entry_price = s₂.effective_entry_price)
    (h2 : s₁.cumulative_profit = s₂.cumulative_profit)
    (h3 : s₁.total_hedging_cost = s₂.total_hedging_cost)
    (h4 : s₁.rebalance_count = s₂.rebalance_count) :
    (step_state c s₁ p).effective_entry_price =
        (step_state c s₂ p).effective_entry_price ∧
    (step_state c s₁ p).cumulative_profit =
        (step_state c s₂ p).cumulative_profit ∧
    (step_state c s₁ p).total_hedging_cost =
        (step_state c s₂ p).total_hedging_cost ∧
    (step_state c s₁ p).rebalance_count =
        (step_state c s₂ p).rebalance_count := by
  have hc := calculate_travel_percent_congr c s₁ s₂ p h1
  have hx := execute_rebalance_fst_congr c s₁ s₂ p h1
  refine ⟨?_, ?_, ?_, ?_⟩
  · rw [step_state_eff, step_state_eff, hc, h1]
  · rw [step_state_cum, step_state_cum, hc, h2, hx]
  · rw [step_state_cost, step_state_cost, hc, h3, hx]
  · rw [step_state_count, step_state_count, hc, h4]

theorem step_entry_strip_congr (c : SimConfig α) (s₁ s₂ : SimState α)
    (k : ℕ) (now₁ now₂ dt p : α)
    (h1 : s₁.effective_entry_price = s₂.effective_entry_price)
    (h2 : s₁.cumulative_profit = s₂.cumulative_profit)
    (h3 : s₁.total_hedging_cost = s₂.total_hedging_cost)
    (h4 : s₁.rebalance_count = s₂.rebalance_count) :
    stripTime (step_entry c s₁ k now₁ dt p) =
      stripTime (step_entry c s₂ k now₂ dt p) := by
  have hc := calculate_travel_percent_congr c s₁ s₂ p h1
  have hx := execute_rebalance_fst_congr c s₁ s₂ p h1
  have hs := step_state_congr c s₁ s₂ p h1 h2 h3 h4
  refine LogEntry.ext rfl rfl rfl ?_ ?_ ?_ ?_ ?_
  · exact hc
  · show (if calculate_travel_percent c s₁ p ≤ c.rebalance_threshold then
        Action.REBALANCE else Action.NONE) =
      (if calculate_travel_percent c s₂ p ≤ c.rebalance_threshold then
        Action.REBALANCE else Action.NONE)
    rw [hc]
  · show (p - (step_state c s₁ p).effective_entry_price) * c.position_size =
      (p - (step_state c s₂ p).effective_entry_price) * c.position_size
    rw [hs.1]
  · exact hs.2.1
  · show (if calculate_travel_percent c s₁ p ≤ c.rebalance_threshold then
        some (execute_rebalance c s₁ p).1 else none) =
      (if calculate_travel_percent c s₂ p ≤ c.rebalance_threshold then
        some (execute_rebalance c s₂ p).1 else none)
    rw [hc, hx]

/-- Changing only the wall-clock base time of a run changes nothing in the
loop's evolution except the recorded timestamps. -/
theorem run_loop_time_invariant (c : SimConfig α) (dt : α)
    (gen : ℕ → α → α) (now₁ now₂ : α) :
    ∀ n k cur (s₁ s₂ : SimState α),
      s₁.effective_entry_price = s₂.effective_entry_price →
      s₁.cumulative_profit = s₂.cumulative_profit →
      s₁.total_hedging_cost = s₂.total_hedging_cost →
      s₁.rebalance_count = s₂.rebalance_count →
      s₁.simulation_log.map stripTime = s₂.simulation_log.map stripTime →
      AgreeExceptTime (run_loop c dt now₁ gen k cur s₁ n)
        (run_loop c dt now₂ gen k cur s₂ n) := by
  intro n
  induction n with
  | zero =>
      intro k cur s₁ s₂ h1 h2 h3 h4 h5
      exact ⟨rfl, h1, h2, h3, h4, h5⟩
  | succ n ih =>
      intro k cur s₁ s₂ h1 h2 h3 h4 h5
      rw [run_loop_succ, run_loop_succ]
      have hs := step_state_congr c s₁ s₂ (gen k cur) h1 h2 h3 h4
      apply ih
      · rw [sim_step_eq, sim_step_eq]
        exact hs.1
      · rw [sim_step_eq, sim_step_eq]
        exact hs.2.1
      · rw [sim_step_eq, sim_step_eq]
        exact hs.2.2.1
      · rw [sim_step_eq, sim_step_eq]
        exact hs.2.2.2
      · rw [sim_step_eq, sim_step_eq]
        show (s₁.simulation_log ++ [step_entry c s₁ k now₁ dt (gen k cur)]).map
            stripTime =
          (s₂.simulation_log ++ [step_entry c s₂ k now₂ dt (gen k cur)]).map
            stripTime
        rw [List.map_append, List.map_append, h5,
          List.map_singleton, List.map_singleton,
          step_entry_strip_congr c s₁ s₂ k now₁ now₂ dt (gen k cur) h1 h2 h3 h4]

/-- C9 (amended): two runs with identical parameters and the same stream of
pseudorandom draws (same seed) produce the same final price, final state
accumulators, and step logs that are identical in every field except the
wall-clock-derived timestamps. -/
theorem fixed_seed_runs_agree_except_time (c : SimConfig ℝ)
    (d dt drift vol now₁ now₂ : ℝ) (eps : ℕ → ℝ) :
    AgreeExceptTime (run_simulation_gbm c d dt drift vol now₁ eps)
      (run_simulation_gbm c d dt drift vol now₂ eps) := by
  simp only [run_simulation_gbm, run_simulation]
  exact run_loop_time_invariant c dt _ now₁ now₂ _ 0 c.entry_price _ _
    rfl rfl rfl rfl rfl

/-- Counterexample to C9 as stated: the log records a timestamp derived
from `datetime.datetime.now()`, so two runs with identical parameters and
the identical draw stream, started at wall-clock times `0` and `1`, produce
different (not byte-identical) logs — their single entries differ in the
timestamp field. -/
theorem fixed_seed_logs_cex :
    (run_simulation_gbm (⟨2, 1, 1, 1, -25, 0⟩ : SimConfig ℝ) 1 1 0 0 0
        (fun _ => 0)).1.simulation_log ≠
    (run_simulation_gbm (⟨2, 1, 1, 1, -25, 0⟩ : SimConfig ℝ) 1 1 0 0 1
        (fun _ => 0)).1.simulation_log := by
  rw [run_simulation_gbm_zero, run_simulation_gbm_zero,
    run_simulation_one_step _ _ _ _ _ (by norm_num [num_steps, pyInt]),
    run_simulation_one_step _ _ _ _ _ (by norm_num [num_steps, pyInt]),
    sim_step_eq, sim_step_eq]
  intro h
  have h2 := congrArg (List.map LogEntry.timestamp) h
  simp only [init_state, List.nil_append, List.map_cons, List.map_nil,
    step_entry, List.cons.injEq, and_true] at h2
  norm_num at h2

end PositionSimulator
